import Mathlib

/-!
Verification development for the Hybrid Retrieval Engine of the
RAG tax-advisory system.

The definitions below are a shallow embedding of the Python source:

* `tokenize`, `reciprocal_rank_fusion`, `HybridRetriever`, `retrieve`
  embed `src/retriever.py`;
* `TAX_KEYWORDS`, `is_tax_question`, `build_query`, `CONFIDENCE_THRESHOLD`,
  `TOP_K`, `handle_question` embed the gating logic of `src/app.py`.

Scores and distances are modelled as rationals.  Python dictionaries
(which preserve insertion order, with updates keeping the position of the
first insertion of a key) are modelled as association lists with the same
ordering discipline.  Python's stable `sorted(..., reverse=True)` is
modelled by `List.mergeSort` with a greater-or-equal comparison, which is
likewise a stable descending sort.  The ChromaDB vector-index response is
an input to `retrieve`: a list of (chunk id, distance) pairs, most similar
first, exactly the shape the external collaborator returns.
-/

/-! ### Tokenization (src/retriever.py, `tokenize`) -/

/-- Python's `str.lower` (ASCII fragment, which is all the corpus and the
claims exercise): lowercase every character. -/
def pyLower (s : String) : String := String.mk (s.toList.map Char.toLower)

/-- Word characters of the regex `\w`: letters, digits, underscore
(ASCII fragment, which is all the corpus and the claims exercise). -/
def isWordChar (c : Char) : Bool := c.isAlphanum || c = '_'

/-- Maximal runs of word characters of a character list, in order of
occurrence; embeds `re.findall(r'\b\w+\b', ...)`. -/
def wordRuns (l : List Char) : List (List Char) :=
  match l with
  | [] => []
  | c :: cs =>
    if isWordChar c then
      (c :: cs.takeWhile isWordChar) :: wordRuns (cs.dropWhile isWordChar)
    else
      wordRuns cs
termination_by l.length
decreasing_by
· have h := (List.dropWhile_sublist isWordChar (l := cs)).length_le
  simp only [List.length_cons]
  omega
· simp

/-- Embeds `tokenize` of src/retriever.py: lowercase, then the maximal
word-character runs. -/
def tokenize (text : String) : List String :=
  (wordRuns (pyLower text).toList).map (fun cs => String.mk cs)

/-! ### Reciprocal rank fusion (src/retriever.py, `reciprocal_rank_fusion`) -/

/-- Embeds `scores[chunk_id] = scores.get(chunk_id, 0) + add` on a Python
dict kept as an insertion-ordered association list: an existing key keeps
its position, a new key is appended at the end. -/
def updateScore (scores : List (String × ℚ)) (cid : String) (add : ℚ) :
    List (String × ℚ) :=
  match scores with
  | [] => [(cid, add)]
  | (c, s) :: rest =>
    if c = cid then (c, s + add) :: rest
    else (c, s) :: updateScore rest cid add

/-- One `for rank, chunk_id in enumerate(ids)` accumulation loop of
`reciprocal_rank_fusion`, starting at rank `r`. -/
def accumScores (k : ℚ) : ℕ → List String → List (String × ℚ) → List (String × ℚ)
  | _, [], scores => scores
  | r, cid :: rest, scores =>
    accumScores k (r + 1) rest (updateScore scores cid (1 / (k + (r : ℚ) + 1)))

/-- The RRF score dictionary after both accumulation loops, in Python dict
iteration order (first-encounter order over `vector_ids` then `bm25_ids`). -/
def rrfScores (vector_ids bm25_ids : List String) (k : ℚ) : List (String × ℚ) :=
  accumScores k 0 bm25_ids (accumScores k 0 vector_ids [])

/-- Comparison used to embed Python's stable `sorted(..., reverse=True)`
by score. -/
def scoreGE (a b : String × ℚ) : Bool := decide (b.2 ≤ a.2)

/-- Embeds `reciprocal_rank_fusion` of src/retriever.py. The source's
default damping constant is `k = 60`; callers in the repository always use
the default. -/
def reciprocal_rank_fusion (vector_ids bm25_ids : List String) (k : ℚ) :
    List String :=
  ((rrfScores vector_ids bm25_ids k).mergeSort scoreGE).map Prod.fst

/-! ### Hybrid retriever (src/retriever.py, `HybridRetriever`) -/

/-- A stored chunk: text and metadata, as held in `chunk_map`. -/
structure Chunk where
  text : String
  metadata : List (String × String)
deriving DecidableEq

/-- Python dict insertion for the `chunk_map` comprehension: a repeated key
overwrites the value but keeps the position of its first occurrence. -/
def dictInsert (m : List (String × Chunk)) (cid : String) (v : Chunk) :
    List (String × Chunk) :=
  match m with
  | [] => [(cid, v)]
  | (c, w) :: rest =>
    if c = cid then (c, v) :: rest
    else (c, w) :: dictInsert rest cid v

/-- Python dict lookup on the association-list model. -/
def dictLookup (m : List (String × Chunk)) (cid : String) : Option Chunk :=
  match m with
  | [] => none
  | (c, v) :: rest => if c = cid then some v else dictLookup rest cid

/-- Embeds the `chunk_map` dict comprehension over
`zip(all_ids, all_texts, all_metadatas)`. -/
def mkChunkMap (all_ids : List String) (all_texts : List String)
    (all_metadatas : List (List (String × String))) : List (String × Chunk) :=
  (all_ids.zip (all_texts.zip all_metadatas)).foldl
    (fun m p => dictInsert m p.1 ⟨p.2.1, p.2.2⟩) []

/-- State of `HybridRetriever` after `__init__`: the loaded corpus columns,
the chunk map, and the BM25 scorer built by the external `rank_bm25`
library (modelled as the scoring function the library object provides). -/
structure HybridRetriever where
  all_ids : List String
  all_texts : List String
  all_metadatas : List (List (String × String))
  chunk_map : List (String × Chunk)
  bm25 : List String → List ℚ

/-- Embeds `HybridRetriever.__init__`: stores the corpus columns, builds
`chunk_map` by the dict comprehension, and builds the BM25 index by handing
the tokenized texts to the external library constructor `bm25lib`.  The
source performs no validation of ids or texts. -/
def mkHybridRetriever (all_ids : List String) (all_texts : List String)
    (all_metadatas : List (List (String × String)))
    (bm25lib : List (List String) → List String → List ℚ) : HybridRetriever :=
  { all_ids := all_ids
    all_texts := all_texts
    all_metadatas := all_metadatas
    chunk_map := mkChunkMap all_ids all_texts all_metadatas
    bm25 := bm25lib (all_texts.map tokenize) }

/-- One element of the result list built by `retrieve`. -/
structure RetrievedChunk where
  chunk_id : String
  text : String
  metadata : List (String × String)
deriving DecidableEq

/-- Embeds `HybridRetriever.retrieve`.  `vecResp` is the ChromaDB response
for the query (ids with cosine distances, nearest first); the source reads
`vec_results["ids"][0]` and `vec_results["distances"][0][0]` from it.  The
BM25 scores come from the stored scorer; the top `candidate_k` indices are
taken by a stable descending sort of `range(len(bm25_scores))`. -/
def retrieve (r : HybridRetriever) (vecResp : List (String × ℚ))
    (query : String) (top_k : ℕ) (candidate_k : ℕ) :
    List RetrievedChunk × ℚ :=
  let query_tokens := tokenize query
  let vector_ids := vecResp.map Prod.fst
  let best_vector_score : ℚ :=
    match vecResp with
    | [] => 0
    | (_, d) :: _ => 1 - d / 2
  let bm25_scores := r.bm25 query_tokens
  let top_bm25_indices :=
    ((List.range bm25_scores.length).mergeSort
      (fun i j => decide (bm25_scores.getD j 0 ≤ bm25_scores.getD i 0))).take
      candidate_k
  let bm25_ids := top_bm25_indices.map (fun i => r.all_ids.getD i "")
  let fused_ids := (reciprocal_rank_fusion vector_ids bm25_ids 60).take top_k
  let results := fused_ids.filterMap (fun cid =>
    (dictLookup r.chunk_map cid).map
      (fun ch => RetrievedChunk.mk cid ch.text ch.metadata))
  (results, best_vector_score)

/-! ### Application gate (src/app.py) -/

/-- Embeds `TAX_KEYWORDS` of src/app.py (a Python set; membership is the
only operation performed on it, so a list model is faithful). -/
def TAX_KEYWORDS : List String :=
  ["tax", "taxes", "form", "irs", "filing", "file", "income", "deduction",
   "refund", "w-2", "w2", "1040", "8843", "8233", "1098", "withholding",
   "treaty", "visa", "f-1", "f1", "j-1", "j1", "opt", "cpt", "fica",
   "ssn", "itin", "scholarship", "stipend", "wage", "wages", "salary",
   "resident", "nonresident", "return", "credit", "exemption", "alien",
   "substantial", "presence", "deadline", "april", "extension", "state",
   "federal", "social security", "medicare", "fellowship", "tuition"]

/-- Python's substring test `needle in hay` on character lists. -/
def listContainsSub (hay needle : List Char) : Bool :=
  match hay with
  | [] => needle.isPrefixOf ([] : List Char)
  | _ :: t => needle.isPrefixOf hay || listContainsSub t needle

/-- Python's `sub in hay` on strings. -/
def strContains (hay sub : String) : Bool :=
  listContainsSub hay.toList sub.toList

/-- Embeds `is_tax_question` of src/app.py: some keyword is a substring of
the lowercased question. -/
def is_tax_question (question : String) : Bool :=
  TAX_KEYWORDS.any (fun kw => strContains (pyLower question) kw)

/-- Embeds `CONFIDENCE_THRESHOLD = 0.70` of src/app.py. -/
def CONFIDENCE_THRESHOLD : ℚ := 70 / 100

/-- Embeds `TOP_K = 5` of src/app.py. -/
def TOP_K : ℕ := 5

/-- Student profile collected by `get_student_info` of src/app.py. -/
structure StudentInfo where
  visa_type : String
  home_country : String
  first_entry_year : String
  tax_year : String
  income_types : List String
  state : String
  has_ssn_or_itin : Bool
deriving DecidableEq

/-- Embeds `build_query` of src/app.py. -/
def build_query (student_info : StudentInfo) (question : String) : String :=
  let parts := [question,
    student_info.visa_type ++ " student",
    "from " ++ student_info.home_country,
    "tax year " ++ student_info.tax_year]
  let parts :=
    if student_info.income_types.any
        (fun t => strContains t "OPT" || strContains t "CPT") then
      parts ++ ["OPT CPT employment"]
    else parts
  String.intercalate " " parts

/-- Outcome of one iteration of the question loop in `main` of src/app.py
for a non-empty, non-quit question: refuse as off-topic (stage 1), refuse
with the numeric confidence (stage 2), or invoke generation (`ask_gemini`)
on the retrieved chunks.  `answered` is the only outcome in which the
generation step runs. -/
inductive Outcome where
  | offTopic : Outcome
  | lowConfidence : ℚ → Outcome
  | answered : List RetrievedChunk → ℚ → Outcome
deriving DecidableEq

/-- Embeds the per-question gating logic of `main` in src/app.py:
the keyword filter short-circuits before retrieval; otherwise the enriched
query is retrieved with `top_k = TOP_K` and the confidence floor is
applied; only then is generation invoked. -/
def handle_question (r : HybridRetriever) (info : StudentInfo)
    (vecResp : List (String × ℚ)) (question : String) : Outcome :=
  if is_tax_question question = false then
    Outcome.offTopic
  else
    let query := build_query info question
    let res := retrieve r vecResp query TOP_K 20
    if res.2 < CONFIDENCE_THRESHOLD then Outcome.lowConfidence res.2
    else Outcome.answered res.1 res.2

/-! ### Specification-side definitions and proof helpers -/

/-- Clamping to the unit interval, the operation the specification
describes for the confidence computation. -/
def clamp01 (x : ℚ) : ℚ := max 0 (min 1 x)

/-- Modelled from the spec: the `IngestionError` failure of the Chunk
Store loader described in the specification.  No such error exists
anywhere in the source. -/
inductive IngestionError where
  | badRecord : IngestionError
deriving DecidableEq

/-- An ingested record as the specification describes it: a possibly
missing chunk id, a text, and metadata. -/
structure IngestRecord where
  chunk_id : Option String
  text : String
  metadata : List (String × String)
deriving DecidableEq

/-- Modelled from the spec: `load(records)` of the Chunk Store, which
fails with `IngestionError` if any record lacks `chunk_id` or has empty
`text`, and otherwise populates an identifier-to-chunk mapping.  The
source constructor `HybridRetriever.__init__` performs no such
validation; this definition exists only to state that divergence. -/
def specLoad (records : List IngestRecord) :
    Except IngestionError (List (String × Chunk)) :=
  match records with
  | [] => Except.ok []
  | rcd :: rest =>
    match rcd.chunk_id with
    | none => Except.error IngestionError.badRecord
    | some cid =>
      if rcd.text = "" then Except.error IngestionError.badRecord
      else (specLoad rest).map (fun m => dictInsert m cid ⟨rcd.text, rcd.metadata⟩)

/-- The association list `[(L 0, 1/(k+r+1)), (L 1, 1/(k+r+2)), ...]`: the
score dictionary a single RRF accumulation loop produces on fresh keys. -/
def rankList (k : ℚ) : ℕ → List String → List (String × ℚ)
  | _, [] => []
  | r, cid :: rest => (cid, 1 / (k + (r : ℚ) + 1)) :: rankList k (r + 1) rest

/-- Specification-side reading of the tokenizer: fold over the characters
from the right, extending the current run at a word character and starting
a new run at every separator. -/
def runsFold (l : List Char) : List (List Char) :=
  l.foldr (fun c acc =>
    if isWordChar c then (c :: acc.headD []) :: acc.tail
    else [] :: acc) [[]]

/-- Specification-side tokenizer built on `runsFold`: the maximal runs of
word characters of the lowercased input, in order of occurrence, with the
empty runs between consecutive separators discarded. -/
def specTokenize (text : String) : List String :=
  ((runsFold (pyLower text).toList).filter (fun t => !t.isEmpty)).map
    (fun cs => String.mk cs)

/-- A concrete retriever over a two-chunk corpus, used to instantiate
theorems with hypotheses. -/
def sampleRetriever : HybridRetriever :=
  mkHybridRetriever ["c1", "c2"] ["tax treaty text", "visa text"] [[], []]
    (fun _ _ => [1, 2])

/-- A concrete student profile (the source's default answers). -/
def sampleInfo : StudentInfo :=
  ⟨"F-1", "India", "2023", "2024", ["None"], "CA", false⟩

/-- The off-topic example question of the specification (with its
apostrophe spelled numerically). -/
def weatherQuestion : String :=
  String.mk ['W', 'h', 'a', 't', Char.ofNat 39, 's', ' ', 't', 'h', 'e',
    ' ', 'w', 'e', 'a', 't', 'h', 'e', 'r', ' ', 't', 'o', 'd', 'a', 'y', '?']

/-! ### Lemmas about the RRF score dictionary -/

theorem updateScore_map_fst (s : List (String × ℚ)) (cid : String) (add : ℚ) :
    (updateScore s cid add).map Prod.fst =
      if cid ∈ s.map Prod.fst then s.map Prod.fst
      else s.map Prod.fst ++ [cid] := by
  induction s with
  | nil => simp [updateScore]
  | cons p rest ih =>
    obtain ⟨c, sc⟩ := p
    by_cases hc : c = cid
    · subst hc
      simp [updateScore]
    · have hcs : cid = c ↔ False := by
        constructor
        · intro hh
          exact hc hh.symm
        · intro hh
          exact hh.elim
      simp only [updateScore, if_neg hc, List.map_cons, List.mem_cons, hcs,
        false_or]
      rw [ih]
      by_cases hmem : cid ∈ rest.map Prod.fst
      · simp [hmem]
      · simp [hmem]

theorem mem_updateScore_map_fst {s : List (String × ℚ)} {cid : String}
    {add : ℚ} {x : String} :
    x ∈ (updateScore s cid add).map Prod.fst ↔
      x ∈ s.map Prod.fst ∨ x = cid := by
  rw [updateScore_map_fst]
  by_cases h : cid ∈ s.map Prod.fst
  · simp only [if_pos h]
    constructor
    · exact fun hx => Or.inl hx
    · rintro (hx | rfl)
      · exact hx
      · exact h
  · simp [if_neg h, List.mem_append]

theorem nodup_updateScore_map_fst {s : List (String × ℚ)} {cid : String}
    {add : ℚ} (h : (s.map Prod.fst).Nodup) :
    ((updateScore s cid add).map Prod.fst).Nodup := by
  rw [updateScore_map_fst]
  by_cases hm : cid ∈ s.map Prod.fst
  · simpa [hm]
  · simp only [if_neg hm]
    refine List.Nodup.append h (List.nodup_singleton cid) ?_
    intro x hx hxc
    simp only [List.mem_singleton] at hxc
    exact hm (hxc ▸ hx)

theorem mem_accumScores_map_fst (k : ℚ) (ids : List String) :
    ∀ (r : ℕ) (s : List (String × ℚ)) (x : String),
      x ∈ (accumScores k r ids s).map Prod.fst ↔
        x ∈ s.map Prod.fst ∨ x ∈ ids := by
  induction ids with
  | nil =>
    intro r s x
    simp [accumScores]
  | cons cid rest ih =>
    intro r s x
    simp only [accumScores]
    rw [ih]
    rw [mem_updateScore_map_fst]
    simp only [List.mem_cons]
    tauto

theorem nodup_accumScores_map_fst (k : ℚ) (ids : List String) :
    ∀ (r : ℕ) (s : List (String × ℚ)), (s.map Prod.fst).Nodup →
      ((accumScores k r ids s).map Prod.fst).Nodup := by
  induction ids with
  | nil =>
    intro r s h
    simpa [accumScores]
  | cons cid rest ih =>
    intro r s h
    simp only [accumScores]
    exact ih _ _ (nodup_updateScore_map_fst h)

theorem nodup_rrfScores_map_fst (listA listB : List String) (k : ℚ) :
    ((rrfScores listA listB k).map Prod.fst).Nodup := by
  unfold rrfScores
  exact nodup_accumScores_map_fst k listB 0 _
    (nodup_accumScores_map_fst k listA 0 [] (by simp))

theorem mem_rrfScores_map_fst (listA listB : List String) (k : ℚ) (x : String) :
    x ∈ (rrfScores listA listB k).map Prod.fst ↔ x ∈ listA ∨ x ∈ listB := by
  unfold rrfScores
  rw [mem_accumScores_map_fst, mem_accumScores_map_fst]
  simp

theorem scoreGE_trans : ∀ (a b c : String × ℚ),
    scoreGE a b → scoreGE b c → scoreGE a c := by
  intro a b c hab hbc
  simp only [scoreGE, decide_eq_true_eq] at *
  exact le_trans hbc hab

theorem scoreGE_total : ∀ (a b : String × ℚ), scoreGE a b || scoreGE b a := by
  intro a b
  simp only [scoreGE, Bool.or_eq_true, decide_eq_true_eq]
  exact le_total b.2 a.2

theorem nodup_rrf (listA listB : List String) (k : ℚ) :
    (reciprocal_rank_fusion listA listB k).Nodup := by
  unfold reciprocal_rank_fusion
  have hmap := (List.mergeSort_perm (rrfScores listA listB k) scoreGE).map Prod.fst
  exact hmap.nodup_iff.mpr (nodup_rrfScores_map_fst listA listB k)

theorem mem_rrf (listA listB : List String) (k : ℚ) (x : String) :
    x ∈ reciprocal_rank_fusion listA listB k ↔ x ∈ listA ∨ x ∈ listB := by
  unfold reciprocal_rank_fusion
  have hmap := (List.mergeSort_perm (rrfScores listA listB k) scoreGE).map Prod.fst
  rw [hmap.mem_iff]
  exact mem_rrfScores_map_fst listA listB k x

/-- C3: for duplicate-free identifier lists, `reciprocal_rank_fusion`
returns a duplicate-free permutation of the set union of the two lists
(here the deduplicated concatenation), so identifiers present in only one
list still appear in the output. -/
theorem rrf_union_perm (listA listB : List String)
    (_hA : listA.Nodup) (_hB : listB.Nodup) :
    (reciprocal_rank_fusion listA listB 60).Nodup ∧
    List.Perm (reciprocal_rank_fusion listA listB 60) ((listA ++ listB).dedup) := by
  refine ⟨nodup_rrf listA listB 60, ?_⟩
  rw [List.perm_ext_iff_of_nodup (nodup_rrf listA listB 60) (List.nodup_dedup _)]
  intro x
  rw [mem_rrf, List.mem_dedup, List.mem_append]

/-- C3 witness: concrete duplicate-free lists with an identifier on each
side appearing in only one list. -/
theorem rrf_union_perm_witness :
    (reciprocal_rank_fusion ["a", "b", "c"] ["b", "d"] 60).Nodup ∧
    List.Perm (reciprocal_rank_fusion ["a", "b", "c"] ["b", "d"] 60)
      ((["a", "b", "c"] ++ ["b", "d"]).dedup) :=
  rrf_union_perm ["a", "b", "c"] ["b", "d"] (by decide) (by decide)

/-- C6: when two identifiers end with exactly equal fused scores, the
fused output keeps them in the relative order in which they were first
encountered while iterating `listA` then `listB` (which is the order of
the score dictionary `rrfScores`), independent of the score value. -/
theorem rrf_tiebreak_first_encounter (listA listB : List String)
    (x y : String) (s : ℚ)
    (h : List.Sublist [(x, s), (y, s)] (rrfScores listA listB 60)) :
    List.Sublist [x, y] (reciprocal_rank_fusion listA listB 60) := by
  have hpair : List.Sublist [(x, s), (y, s)]
      ((rrfScores listA listB 60).mergeSort scoreGE) :=
    List.pair_sublist_mergeSort scoreGE_trans scoreGE_total
      (by simp [scoreGE]) h
  have hm := hpair.map Prod.fst
  simpa [reciprocal_rank_fusion] using hm

/-- C6 witness: with `listA = [a, b]` and `listB = [b, a]` both identifiers
score `1/61 + 1/62`, and the output keeps the first-encounter order
`[a, b]`. -/
theorem rrf_tiebreak_first_encounter_witness :
    List.Sublist [(("a" : String), (123 : ℚ)/3782), ("b", (123 : ℚ)/3782)]
      (rrfScores ["a", "b"] ["b", "a"] 60) ∧
    List.Sublist [("a" : String), "b"]
      (reciprocal_rank_fusion ["a", "b"] ["b", "a"] 60) := by
  have hsc : rrfScores ["a", "b"] ["b", "a"] 60 =
      [(("a" : String), (123 : ℚ)/3782), ("b", (123 : ℚ)/3782)] := by
    norm_num [rrfScores, accumScores, updateScore]
  constructor
  · rw [hsc]
  · exact rrf_tiebreak_first_encounter ["a", "b"] ["b", "a"] "a" "b"
      ((123 : ℚ)/3782) (by rw [hsc])

theorem updateScore_of_not_mem {s : List (String × ℚ)} {cid : String}
    {add : ℚ} (h : cid ∉ s.map Prod.fst) :
    updateScore s cid add = s ++ [(cid, add)] := by
  induction s with
  | nil => simp [updateScore]
  | cons p rest ih =>
    obtain ⟨c, sc⟩ := p
    simp only [List.map_cons, List.mem_cons] at h
    push_neg at h
    have hc : ¬ c = cid := fun hh => h.1 hh.symm
    simp [updateScore, hc, ih h.2]

theorem accumScores_eq_append_rankList (k : ℚ) (L : List String) :
    ∀ (r : ℕ) (s : List (String × ℚ)), L.Nodup →
      (∀ x ∈ L, x ∉ s.map Prod.fst) →
      accumScores k r L s = s ++ rankList k r L := by
  induction L with
  | nil =>
    intro r s _ _
    simp [accumScores, rankList]
  | cons c rest ih =>
    intro r s hnd hdisj
    simp only [accumScores, rankList]
    rw [updateScore_of_not_mem (hdisj c (by simp))]
    rw [ih (r + 1) _ (List.Nodup.of_cons hnd) ?_]
    · simp
    · intro x hx
      simp only [List.map_append, List.mem_append, List.map_cons,
        List.map_nil, List.mem_singleton]
      push_neg
      refine ⟨hdisj x (by simp [hx]), ?_⟩
      intro hxc
      have := List.rel_of_pairwise_cons hnd hx
      exact this (hxc ▸ rfl)

theorem rankList_map_fst (k : ℚ) :
    ∀ (r : ℕ) (L : List String), (rankList k r L).map Prod.fst = L := by
  intro r L
  induction L generalizing r with
  | nil => simp [rankList]
  | cons c rest ih => simp [rankList, ih]

theorem rankList_score_le (k : ℚ) (hk : 0 ≤ k) :
    ∀ (L : List String) (r r' : ℕ), r ≤ r' →
      ∀ x ∈ rankList k r' L, x.2 ≤ 1 / (k + (r : ℚ) + 1) := by
  intro L
  induction L with
  | nil =>
    intro r r' _ x hx
    simp [rankList] at hx
  | cons c rest ih =>
    intro r r' hr x hx
    simp only [rankList, List.mem_cons] at hx
    rcases hx with rfl | hx
    · have hpos : (0 : ℚ) < k + (r : ℚ) + 1 := by positivity
      have hle : (k : ℚ) + (r : ℚ) + 1 ≤ k + (r' : ℚ) + 1 := by
        have : (r : ℚ) ≤ (r' : ℚ) := by exact_mod_cast hr
        linarith
      simpa using one_div_le_one_div_of_le hpos hle
    · exact ih r (r' + 1) (by omega) x hx

theorem rankList_pairwise (k : ℚ) (hk : 0 ≤ k) :
    ∀ (L : List String) (r : ℕ),
      (rankList k r L).Pairwise (fun a b => scoreGE a b = true) := by
  intro L
  induction L with
  | nil =>
    intro r
    simp [rankList]
  | cons c rest ih =>
    intro r
    simp only [rankList]
    refine List.Pairwise.cons ?_ (ih (r + 1))
    intro b hb
    simp only [scoreGE, decide_eq_true_eq]
    exact rankList_score_le k hk rest r (r + 1) (by omega) b hb

/-- C7: fusing a duplicate-free list with the empty list, on either side,
returns exactly that list: RRF with one empty input is a rank-preserving
copy. -/
theorem rrf_empty_preserves_order (L : List String) (h : L.Nodup) :
    reciprocal_rank_fusion L [] 60 = L ∧
    reciprocal_rank_fusion [] L 60 = L := by
  have hL : accumScores 60 0 L [] = rankList 60 0 L := by
    have := accumScores_eq_append_rankList 60 L 0 [] h (by simp)
    simpa using this
  have hms : (rankList 60 0 L).mergeSort scoreGE = rankList 60 0 L :=
    List.mergeSort_of_sorted (rankList_pairwise 60 (by norm_num) L 0)
  constructor
  · unfold reciprocal_rank_fusion rrfScores
    simp only [accumScores]
    rw [hL, hms, rankList_map_fst]
  · unfold reciprocal_rank_fusion rrfScores
    simp only [accumScores]
    rw [hL, hms, rankList_map_fst]

/-- C7 witness: a concrete two-element list is returned unchanged by
fusion with the empty list on either side. -/
theorem rrf_empty_preserves_order_witness :
    reciprocal_rank_fusion ["a", "b"] [] 60 = ["a", "b"] ∧
    reciprocal_rank_fusion [] ["a", "b"] 60 = ["a", "b"] :=
  rrf_empty_preserves_order ["a", "b"] (by decide)

/-! ### Lemmas about `retrieve` -/

theorem results_map_chunk_id_sublist (m : List (String × Chunk)) (l : List String) :
    List.Sublist
      ((l.filterMap (fun cid =>
        (dictLookup m cid).map
          (fun ch => RetrievedChunk.mk cid ch.text ch.metadata))).map
        RetrievedChunk.chunk_id) l := by
  induction l with
  | nil => simp
  | cons c rest ih =>
    simp only [List.filterMap_cons]
    cases hdl : dictLookup m c with
    | none => exact ih.cons c
    | some ch =>
      simpa using List.Sublist.cons₂ c ih

/-- C2: for every query and `top_k` of at least 1, the chunk list returned
by `retrieve` has at most `top_k` entries, carries no duplicate chunk ids,
and every returned chunk id is a key of the chunk map; fused identifiers
absent from the map are skipped (they simply do not appear), and the call
always returns rather than failing. -/
theorem retrieve_invariants (r : HybridRetriever) (vecResp : List (String × ℚ))
    (query : String) (top_k candidate_k : ℕ) (_h : 1 ≤ top_k) :
    (retrieve r vecResp query top_k candidate_k).1.length ≤ top_k ∧
    ((retrieve r vecResp query top_k candidate_k).1.map
      RetrievedChunk.chunk_id).Nodup ∧
    ∀ c ∈ (retrieve r vecResp query top_k candidate_k).1,
      dictLookup r.chunk_map c.chunk_id ≠ none := by
  refine ⟨?_, ?_, ?_⟩
  · simp only [retrieve]
    refine le_trans (List.length_filterMap_le _ _) ?_
    rw [List.length_take]
    exact min_le_left _ _
  · simp only [retrieve]
    exact List.Nodup.sublist
      ((results_map_chunk_id_sublist _ _).trans (List.take_sublist _ _))
      (nodup_rrf _ _ 60)
  · intro c hc
    simp only [retrieve, List.mem_filterMap] at hc
    obtain ⟨cid, _, hf⟩ := hc
    rw [Option.map_eq_some'] at hf
    obtain ⟨ch, hch, hc2⟩ := hf
    cases hc2
    simp [hch]

/-- C2 witness: a concrete call on the sample retriever, including a fused
identifier absent from the store being skipped. -/
theorem retrieve_invariants_witness :
    (1 ≤ TOP_K) ∧
    ((retrieve sampleRetriever [("zz", 1/2), ("c1", 1)] "tax" TOP_K 20).1.length ≤ TOP_K ∧
    ((retrieve sampleRetriever [("zz", 1/2), ("c1", 1)] "tax" TOP_K 20).1.map
      RetrievedChunk.chunk_id).Nodup ∧
    ∀ c ∈ (retrieve sampleRetriever [("zz", 1/2), ("c1", 1)] "tax" TOP_K 20).1,
      dictLookup sampleRetriever.chunk_map c.chunk_id ≠ none) :=
  ⟨by decide,
    retrieve_invariants sampleRetriever [("zz", 1/2), ("c1", 1)] "tax" TOP_K 20
      (by decide)⟩

/-- C1: under the ChromaDB cosine-distance contract (every distance in
`[0, 2]`), the confidence returned by `retrieve` equals `1 - distance/2`
for the nearest distance, which coincides with its clamp to `[0, 1]` and
lies in `[0, 1]`; when the vector index returns no candidates the
confidence is exactly 0. -/
theorem retrieve_confidence_clamped (r : HybridRetriever)
    (vecResp : List (String × ℚ)) (query : String) (top_k candidate_k : ℕ)
    (hd : ∀ p ∈ vecResp, 0 ≤ p.2 ∧ p.2 ≤ 2) :
    (0 ≤ (retrieve r vecResp query top_k candidate_k).2 ∧
      (retrieve r vecResp query top_k candidate_k).2 ≤ 1) ∧
    (vecResp = [] → (retrieve r vecResp query top_k candidate_k).2 = 0) ∧
    (∀ cid d rest, vecResp = (cid, d) :: rest →
      (retrieve r vecResp query top_k candidate_k).2 = clamp01 (1 - d / 2)) := by
  cases vecResp with
  | nil =>
    refine ⟨by simp [retrieve], fun _ => by simp [retrieve], ?_⟩
    intro cid d rest heq
    exact absurd heq (by simp)
  | cons p rest =>
    obtain ⟨cid, d⟩ := p
    have hd0 := hd (cid, d) (by simp)
    have h1 : (retrieve r ((cid, d) :: rest) query top_k candidate_k).2 =
        1 - d / 2 := by
      simp [retrieve]
    have hcl : clamp01 (1 - d / 2) = 1 - d / 2 := by
      unfold clamp01
      rw [min_eq_right (by linarith [hd0.1]), max_eq_right (by linarith [hd0.2])]
    refine ⟨?_, by simp, ?_⟩
    · rw [h1]
      constructor
      · linarith [hd0.2]
      · linarith [hd0.1]
    · intro cid2 d2 rest2 heq
      simp only [List.cons.injEq, Prod.mk.injEq] at heq
      obtain ⟨⟨rfl, rfl⟩, rfl⟩ := heq
      rw [h1, hcl]

/-- C1 witness: a single candidate at distance 1/2 yields confidence 3/4,
inside the unit interval and equal to its clamp. -/
theorem retrieve_confidence_clamped_witness :
    (0 ≤ (retrieve sampleRetriever [("c1", 1/2)] "tax" TOP_K 20).2 ∧
      (retrieve sampleRetriever [("c1", 1/2)] "tax" TOP_K 20).2 ≤ 1) ∧
    (([(("c1" : String), (1 : ℚ)/2)] : List (String × ℚ)) = [] →
      (retrieve sampleRetriever [("c1", 1/2)] "tax" TOP_K 20).2 = 0) ∧
    (∀ cid d rest, ([(("c1" : String), (1 : ℚ)/2)] : List (String × ℚ)) = (cid, d) :: rest →
      (retrieve sampleRetriever [("c1", 1/2)] "tax" TOP_K 20).2 = clamp01 (1 - d / 2)) :=
  retrieve_confidence_clamped sampleRetriever [("c1", 1/2)] "tax" TOP_K 20
    (by
      rintro p hp
      simp only [List.mem_singleton] at hp
      subst hp
      exact ⟨by norm_num, by norm_num⟩)

/-- C8: the confidence component of `retrieve` is computed from the
vector-index response alone; two retrievers with arbitrarily different
corpora and BM25 scorers, given the same vector response, return the same
confidence. -/
theorem confidence_independent_of_bm25 (r1 r2 : HybridRetriever)
    (vecResp : List (String × ℚ)) (query : String) (top_k candidate_k : ℕ) :
    (retrieve r1 vecResp query top_k candidate_k).2 =
      (retrieve r2 vecResp query top_k candidate_k).2 := by
  cases vecResp <;> rfl

/-! ### Theorems about the confidence gate -/

/-- C4: once a question has passed the keyword gate, if the confidence
returned by `retrieve` is strictly below the 0.70 threshold the loop
refuses with `lowConfidence` carrying exactly that confidence and the
generation outcome is never produced; the generation outcome occurs only
when the confidence is at least the threshold. -/
theorem low_confidence_refusal (r : HybridRetriever) (info : StudentInfo)
    (vecResp : List (String × ℚ)) (question : String)
    (htax : is_tax_question question = true) :
    ((retrieve r vecResp (build_query info question) TOP_K 20).2 <
        CONFIDENCE_THRESHOLD →
      handle_question r info vecResp question =
        Outcome.lowConfidence
          (retrieve r vecResp (build_query info question) TOP_K 20).2 ∧
      ∀ chunks conf, handle_question r info vecResp question ≠
        Outcome.answered chunks conf) ∧
    (∀ chunks conf, handle_question r info vecResp question =
        Outcome.answered chunks conf →
      CONFIDENCE_THRESHOLD ≤
        (retrieve r vecResp (build_query info question) TOP_K 20).2) := by
  constructor
  · intro hlt
    constructor
    · simp only [handle_question, htax]
      simp [hlt]
    · intro chunks conf
      simp only [handle_question, htax]
      simp [hlt]
  · intro chunks conf heq
    by_cases hc : (retrieve r vecResp (build_query info question) TOP_K 20).2 <
        CONFIDENCE_THRESHOLD
    · simp only [handle_question, htax] at heq
      simp [hc] at heq
    · exact not_lt.mp hc

/-- C4 witness: a nearest distance of 9/5 gives confidence 1/10, below the
threshold, and the loop refuses with that confidence. -/
theorem low_confidence_refusal_witness :
    is_tax_question "tax" = true ∧
    (retrieve sampleRetriever [("c1", (9 : ℚ)/5)] (build_query sampleInfo "tax")
      TOP_K 20).2 < CONFIDENCE_THRESHOLD ∧
    handle_question sampleRetriever sampleInfo [("c1", (9 : ℚ)/5)] "tax" =
      Outcome.lowConfidence
        ((retrieve sampleRetriever [("c1", (9 : ℚ)/5)]
          (build_query sampleInfo "tax") TOP_K 20).2) := by
  have htax : is_tax_question "tax" = true := by decide
  have hconf : (retrieve sampleRetriever [("c1", (9 : ℚ)/5)]
      (build_query sampleInfo "tax") TOP_K 20).2 = 1 - ((9 : ℚ)/5) / 2 := by
    simp [retrieve]
  have hlt : (retrieve sampleRetriever [("c1", (9 : ℚ)/5)]
      (build_query sampleInfo "tax") TOP_K 20).2 < CONFIDENCE_THRESHOLD := by
    rw [hconf]
    norm_num [CONFIDENCE_THRESHOLD]
  exact ⟨htax, hlt,
    ((low_confidence_refusal sampleRetriever sampleInfo [("c1", (9 : ℚ)/5)]
      "tax" htax).1 hlt).1⟩

/-- C5: for every question containing no tax keyword as a case-insensitive
substring, the loop refuses with `offTopic` for every retriever state and
every vector-index response (so no retrieval data influences the outcome);
and the domain check accepts the Form 8843 example while rejecting the
weather example. -/
theorem off_topic_refusal (question : String)
    (h : is_tax_question question = false) :
    (∀ (r : HybridRetriever) (info : StudentInfo)
      (vecResp : List (String × ℚ)),
      handle_question r info vecResp question = Outcome.offTopic) ∧
    is_tax_question "What is Form 8843?" = true ∧
    is_tax_question weatherQuestion = false := by
  refine ⟨?_, by decide, by decide⟩
  intro r info vecResp
  simp [handle_question, h]

/-- C5 witness: the weather question is refused as off-topic on a concrete
retriever state and vector response. -/
theorem off_topic_refusal_witness :
    is_tax_question weatherQuestion = false ∧
    handle_question sampleRetriever sampleInfo [("c1", (1 : ℚ)/2)]
      weatherQuestion = Outcome.offTopic :=
  ⟨by decide,
    (off_topic_refusal weatherQuestion (by decide)).1 sampleRetriever
      sampleInfo [("c1", (1 : ℚ)/2)]⟩

/-! ### Theorems about construction of the retriever -/

theorem dictLookup_insert_same (m : List (String × Chunk)) (cid : String)
    (v : Chunk) : dictLookup (dictInsert m cid v) cid ≠ none := by
  induction m with
  | nil => simp [dictInsert, dictLookup]
  | cons p rest ih =>
    obtain ⟨c, w⟩ := p
    by_cases hc : c = cid
    · subst hc
      simp [dictInsert, dictLookup]
    · simp [dictInsert, dictLookup, hc, ih]

theorem dictLookup_insert_mono (m : List (String × Chunk)) (cid x : String)
    (v : Chunk) (h : dictLookup m x ≠ none) :
    dictLookup (dictInsert m cid v) x ≠ none := by
  induction m with
  | nil => simp [dictLookup] at h
  | cons p rest ih =>
    obtain ⟨c, w⟩ := p
    by_cases hc : c = cid
    · subst hc
      simp only [dictInsert, if_pos rfl]
      simp only [dictLookup] at h ⊢
      by_cases hx : c = x
      · simp [hx]
      · simp only [if_neg hx] at h ⊢
        exact h
    · simp only [dictInsert, if_neg hc]
      simp only [dictLookup] at h ⊢
      by_cases hx : c = x
      · simp [hx]
      · simp only [if_neg hx] at h ⊢
        exact ih h

theorem dictLookup_foldl_insert
    (l : List (String × (String × List (String × String)))) :
    ∀ (m : List (String × Chunk)),
      (∀ x, dictLookup m x ≠ none →
        dictLookup
          (l.foldl (fun m p => dictInsert m p.1 ⟨p.2.1, p.2.2⟩) m) x ≠ none) ∧
      (∀ p ∈ l,
        dictLookup
          (l.foldl (fun m p => dictInsert m p.1 ⟨p.2.1, p.2.2⟩) m) p.1 ≠ none) := by
  induction l with
  | nil =>
    intro m
    exact ⟨fun x h => h, by simp⟩
  | cons q rest ih =>
    intro m
    constructor
    · intro x h
      simp only [List.foldl_cons]
      exact (ih _).1 x (dictLookup_insert_mono _ _ _ _ h)
    · intro p hp
      simp only [List.foldl_cons]
      rcases List.mem_cons.mp hp with rfl | hp2
      · exact (ih _).1 p.1 (dictLookup_insert_same m p.1 _)
      · exact (ih _).2 p hp2

/-- C9 counterexample: the record `("c1", "", {})` has empty text, yet
construction of the Hybrid Retriever does not fail: it stores the record
in `chunk_map`, while the loader described by the specification rejects
the very same record with `IngestionError`. -/
theorem construction_accepts_empty_text :
    dictLookup
      (mkHybridRetriever ["c1"] [""] [[]] (fun _ _ => [])).chunk_map "c1" =
      some ⟨"", []⟩ ∧
    specLoad [⟨some "c1", "", []⟩] =
      Except.error IngestionError.badRecord := by
  constructor
  · rfl
  · rfl

/-- C9 (amended): loading the chunk records at Hybrid Retriever
construction performs no validation and never fails; it populates an
identifier-to-chunk mapping covering every zipped (chunk_id, text,
metadata) record, records with empty text included. -/
theorem construction_populates_every_record (all_ids all_texts : List String)
    (all_metadatas : List (List (String × String)))
    (bm25lib : List (List String) → List String → List ℚ) :
    ∀ p ∈ all_ids.zip (all_texts.zip all_metadatas),
      dictLookup
        (mkHybridRetriever all_ids all_texts all_metadatas bm25lib).chunk_map
        p.1 ≠ none := by
  intro p hp
  have h := (dictLookup_foldl_insert
    (all_ids.zip (all_texts.zip all_metadatas)) []).2 p hp
  simpa [mkHybridRetriever, mkChunkMap] using h

/-- C9 witness: the empty-text record is itself covered by the mapping the
constructor builds. -/
theorem construction_populates_every_record_witness :
    dictLookup
      (mkHybridRetriever ["c1"] [""] [[]] (fun _ _ => ([] : List ℚ))).chunk_map
      "c1" ≠ none :=
  construction_populates_every_record ["c1"] [""] [[]]
    (fun _ _ => ([] : List ℚ)) ("c1", ("", [])) (by decide)

/-! ### Theorems about the tokenizer -/

theorem runsFold_ne_nil (l : List Char) : runsFold l ≠ [] := by
  induction l with
  | nil => simp [runsFold]
  | cons c cs ih =>
    simp only [runsFold, List.foldr_cons]
    by_cases h : isWordChar c <;> simp [h]

theorem runsFold_spec (l : List Char) :
    (runsFold l).filter (fun t => !t.isEmpty) = wordRuns l ∧
    (runsFold l).head? = some (l.takeWhile isWordChar) ∧
    (runsFold l).tail.filter (fun t => !t.isEmpty) =
      wordRuns (l.dropWhile isWordChar) := by
  induction l with
  | nil =>
    refine ⟨?_, ?_, ?_⟩ <;> simp [runsFold, wordRuns]
  | cons c cs ih =>
    obtain ⟨ih1, ih2, ih3⟩ := ih
    by_cases h : isWordChar c
    · have hstep : runsFold (c :: cs) =
          (c :: (runsFold cs).headD []) :: (runsFold cs).tail := by
        simp [runsFold, h]
      have hhd : (runsFold cs).headD [] = cs.takeWhile isWordChar := by
        cases hh : runsFold cs with
        | nil => exact absurd hh (runsFold_ne_nil cs)
        | cons a t =>
          rw [hh] at ih2
          simp only [List.head?_cons, Option.some.injEq] at ih2
          simp [ih2]
      refine ⟨?_, ?_, ?_⟩
      · rw [hstep]
        simp only [List.filter_cons, List.isEmpty_cons, Bool.not_false,
          if_pos rfl]
        rw [hhd]
        simp [wordRuns, h, ih3]
      · rw [hstep, List.takeWhile_cons_of_pos h]
        simp [ih2]
      · rw [hstep]
        simp only [List.tail_cons]
        rw [List.dropWhile_cons_of_pos h]
        exact ih3
    · have hstep : runsFold (c :: cs) = [] :: runsFold cs := by
        simp [runsFold, h]
      refine ⟨?_, ?_, ?_⟩
      · rw [hstep]
        simp only [List.filter_cons, List.isEmpty_nil]
        simp [wordRuns, h, ih1]
      · rw [hstep]
        simp [List.takeWhile_cons, h]
      · rw [hstep]
        simp only [List.tail_cons]
        rw [List.dropWhile_cons_of_neg h]
        simp [wordRuns, h, ih1]

theorem wordRuns_mem (l : List Char) :
    ∀ t ∈ wordRuns l, t ≠ [] ∧ t.all isWordChar = true := by
  induction l using wordRuns.induct with
  | case1 =>
    simp [wordRuns]
  | case2 c cs h ih =>
    intro t ht
    simp only [wordRuns, if_pos h, List.mem_cons] at ht
    rcases ht with rfl | ht
    · refine ⟨by simp, ?_⟩
      simp only [List.all_cons, Bool.and_eq_true]
      exact ⟨h, List.all_eq_true.mpr fun x hx => List.mem_takeWhile_imp hx⟩
    · exact ih t ht
  | case3 c cs h ih =>
    intro t ht
    simp only [wordRuns, if_neg h] at ht
    exact ih t ht

/-- C10: `tokenize` returns exactly the maximal runs of word characters
(letters, digits, underscore) of the lowercased input, in order of
occurrence, as given by the independent run-splitting specification
`specTokenize`; every token is non-empty and made of word characters only
(so a hyphen never survives inside a token), and the hyphenated input
"F-1" tokenizes to the two tokens ["f", "1"]. -/
theorem tokenize_maximal_word_runs (s : String) :
    tokenize s = specTokenize s ∧
    (∀ t ∈ tokenize s, t.toList ≠ [] ∧ t.toList.all isWordChar = true) ∧
    tokenize "F-1" = ["f", "1"] := by
  have hequiv : ∀ u : String, tokenize u = specTokenize u := by
    intro u
    unfold tokenize specTokenize
    rw [(runsFold_spec (pyLower u).toList).1]
  refine ⟨hequiv s, ?_, ?_⟩
  · intro t ht
    unfold tokenize at ht
    rw [List.mem_map] at ht
    obtain ⟨cs, hcs, rfl⟩ := ht
    have hm := wordRuns_mem _ cs hcs
    exact ⟨hm.1, hm.2⟩
  · rw [hequiv]
    decide

/-- C10 witness: the theorem instantiated at the hyphenated example, with
the per-token property discharged at the concrete token "f". -/
theorem tokenize_maximal_word_runs_witness :
    tokenize "F-1" = specTokenize "F-1" ∧
    ("f".toList ≠ [] ∧ "f".toList.all isWordChar = true) ∧
    tokenize "F-1" = ["f", "1"] :=
  ⟨(tokenize_maximal_word_runs "F-1").1,
    (tokenize_maximal_word_runs "F-1").2.1 "f"
      (by rw [(tokenize_maximal_word_runs "F-1").2.2]; decide),
    (tokenize_maximal_word_runs "F-1").2.2⟩

/-- C1 counterexample: at nearest distance 3 the source computes
confidence -1/2: no clamping is performed, the value escapes [0, 1], and
it differs from the clamp the claim describes. -/
theorem confidence_not_clamped :
    (retrieve sampleRetriever [("c1", (3 : ℚ))] "tax" TOP_K 20).2 = -(1/2) ∧
    ¬ (0 ≤ (retrieve sampleRetriever [("c1", (3 : ℚ))] "tax" TOP_K 20).2) ∧
    (retrieve sampleRetriever [("c1", (3 : ℚ))] "tax" TOP_K 20).2 ≠
      clamp01 (1 - (3 : ℚ) / 2) := by
  have h : (retrieve sampleRetriever [("c1", (3 : ℚ))] "tax" TOP_K 20).2 =
      1 - (3 : ℚ) / 2 := by
    simp [retrieve]
  refine ⟨by rw [h]; norm_num, by rw [h]; norm_num, by rw [h]; norm_num [clamp01]⟩
